import Mathlib

/-!
Shallow embedding of `ranges/datetimerange.py`.

Timestamps (`datetime`) and durations (`timedelta`) are modelled as integers
(a fixed tick count, e.g. microseconds); `datetime` subtraction yields a
duration, addition shifts a timestamp, both are plain integer `+`/`-` here.
Python's `//` on durations is floor division (`Int.fdiv`) and `%` on
durations is the floor-convention modulo (`Int.fmod`), whose result takes
the sign of the divisor, exactly as Python's `timedelta.__mod__`.

Every `ValueError` / `IndexError` raise in the source becomes an explicit
error value of type `Err`; fallible operations return `Except Err _`.
-/

/-- The distinct failure modes raised by `datetimerange.py`.  All but
`indexOutOfRange` are `ValueError`s in the source (`IndexError` is not a
subclass of `ValueError`, which matters for the `except ValueError` in
`__le__`). -/
inductive Err where
  | invalidStep
  | indexOutOfRange
  | incompatibleDirection
  | incompatibleStep
  | misalignedBoundaries
  | nonContiguous
  | wouldCreateSparseRange
  | misalignedSubtraction
deriving DecidableEq, Repr

/-- `_RangeOrdering` from the source. -/
inductive RangeOrdering where
  | ascending
  | descending
deriving DecidableEq, Repr

/-- The `(start, stop, step)` triple stored by `DatetimeRange.__init__`
(after its `step != 0` check, which `mkRange` below performs). -/
structure DatetimeRange where
  start : ℤ
  stop : ℤ
  step : ℤ
deriving DecidableEq, Repr

/-- `DatetimeRange.__init__`: raises (`InvalidStep`) iff `step == timedelta()`. -/
def mkRange (start stop step : ℤ) : Except Err DatetimeRange :=
  if step = 0 then .error .invalidStep
  else .ok ⟨start, stop, step⟩

/-- `self._len = max(0, (stop - start) // step)`; Python `//` on timedeltas
is floor division, and `Int.toNat` realises the `max(0, _)` clamp. -/
def DatetimeRange.length (r : DatetimeRange) : ℕ :=
  ((r.stop - r.start).fdiv r.step).toNat

/-- `DatetimeRange._ordering`: `ASCENDING if self.step > timedelta() else DESCENDING`. -/
def DatetimeRange.ordering (r : DatetimeRange) : RangeOrdering :=
  if 0 < r.step then .ascending else .descending

/-- Python `max((x, y), key=abs)`: the second element wins only when its
absolute value is strictly larger (`max` keeps the first on ties). -/
def maxByAbs (x y : ℤ) : ℤ :=
  if |x| < |y| then y else x

/-- Python `min((x, y), key=abs)`: the second element wins only when its
absolute value is strictly smaller (`min` keeps the first on ties). -/
def minByAbs (x y : ℤ) : ℤ :=
  if |y| < |x| then y else x

/-- `DatetimeRange.__getitem__`, fuelled.  The source is

    if abs(i) >= len(self): raise IndexError
    if i < 0: return self[len(self) - i]
    return self.start + i * self.step

The recursive call `self[len(self) - i]` (taken only when `i < 0`) passes a
non-negative index, so the recursion never goes two levels deep and fuel 2
computes exactly the source's behaviour (`getFuel_stable` below). -/
def getFuel : ℕ → DatetimeRange → ℤ → Except Err ℤ
  | 0, _, _ => .error .indexOutOfRange
  | fuel + 1, r, i =>
    if (r.length : ℤ) ≤ |i| then .error .indexOutOfRange
    else if i < 0 then getFuel fuel r ((r.length : ℤ) - i)
    else .ok (r.start + i * r.step)

/-- `DatetimeRange.__getitem__(i)`. -/
def DatetimeRange.get (r : DatetimeRange) (i : ℤ) : Except Err ℤ :=
  getFuel 2 r i

/-- `DatetimeRange.__eq__`:

    if len(self) != len(other): return False
    match len(self):
        case 0: return True
        case 1: return self.start == other.start
    return self.start == other.start and self[-1] == other[-1]

Python's `and` short-circuits: `self[-1]` is only evaluated when the starts
match, and an `IndexError` it raises propagates out of `__eq__`. -/
def DatetimeRange.beq (a b : DatetimeRange) : Except Err Bool :=
  if a.length ≠ b.length then .ok false
  else if a.length = 0 then .ok true
  else if a.length = 1 then .ok (decide (a.start = b.start))
  else if a.start = b.start then do
    let x ← a.get (-1)
    let y ← b.get (-1)
    pure (decide (x = y))
  else .ok false

/-- `DatetimeRange.__and__` (intersection). -/
def DatetimeRange.inter (a b : DatetimeRange) : Except Err DatetimeRange :=
  if a.ordering ≠ b.ordering then .error .incompatibleDirection
  else if Int.fmod (maxByAbs a.step b.step) (minByAbs a.step b.step) ≠ 0 then
    .error .incompatibleStep
  else if a.ordering = .ascending then
    mkRange (max a.start b.start) (min a.stop b.stop) (max a.step b.step)
  else
    mkRange (min a.start b.start) (max a.stop b.stop) (min a.step b.step)

/-- `DatetimeRange.__or__` (union). -/
def DatetimeRange.union (a b : DatetimeRange) : Except Err DatetimeRange :=
  if Int.fmod (maxByAbs a.step b.step) (minByAbs a.step b.step) ≠ 0 then
    .error .incompatibleStep
  else if a.step ≠ b.step then
    if a.start ≠ b.start ∨ a.stop ≠ b.stop then .error .misalignedBoundaries
    else mkRange a.start a.stop (minByAbs a.step b.step)
  else if (if a.ordering = .ascending
           then min a.stop b.stop < max a.start b.start
           else min a.start b.start < max a.stop b.stop) then
    .error .nonContiguous
  else if a.ordering = .ascending then
    mkRange (min a.start b.start) (max a.stop b.stop) a.step
  else
    mkRange (max a.start b.start) (min a.stop b.stop) a.step

/-- `DatetimeRange.isdisjoint`: `return not self & other` — the truthiness
of a `DatetimeRange` is `len(self) != 0`, and any exception raised by `&`
propagates (nothing is caught here). -/
def DatetimeRange.isdisjoint (a b : DatetimeRange) : Except Err Bool := do
  let r ← a.inter b
  pure (decide (r.length = 0))

/-- `DatetimeRange.__le__`:

    try: return (self | other) == other
    except ValueError: return False

Only `ValueError`s are converted to `False`; an `IndexError` escaping from
`__eq__` propagates. -/
def DatetimeRange.le (a b : DatetimeRange) : Except Err Bool :=
  match (do let u ← a.union b; u.beq b : Except Err Bool) with
  | .ok v => .ok v
  | .error e => if e = .indexOutOfRange then .error e else .ok false

/-- `DatetimeRange.__sub__` (difference), translated clause by clause; the
indexing expressions `other[-1]` and `self[-1]` are evaluated in the
source's order, with their possible `IndexError` propagating. -/
def DatetimeRange.sub (a b : DatetimeRange) : Except Err DatetimeRange :=
  match b.inter a with
  | .error e => .error e
  | .ok o =>
    if o.length = 0 then .ok a
    else if a.step = o.step then
      if a.start = o.start then mkRange o.stop a.stop a.step
      else if a.stop = o.stop then mkRange a.start o.start a.step
      else .error .wouldCreateSparseRange
    else
      match o.get (-1) with
      | .error e => .error e
      | .ok olast =>
        if a.start = olast then mkRange (a.start + a.step) a.stop a.step
        else
          match a.get (-1) with
          | .error e => .error e
          | .ok alast =>
            if alast = o.start then mkRange a.start alast a.step
            else if a.step * 2 ≠ o.step then .error .misalignedSubtraction
            else if a.start = o.start ∧ alast = olast then
              mkRange (a.start + a.step) alast o.step
            else if a.start + a.step = o.start ∧ alast = olast + a.step then
              mkRange a.start a.stop o.step
            else .error .misalignedSubtraction

/-- `DatetimeRange.__xor__`: `self - other | other - self`. -/
def DatetimeRange.symmDiff (a b : DatetimeRange) : Except Err DatetimeRange := do
  let l ← a.sub b
  let r ← b.sub a
  l.union r

/-- Modelled from the spec: the repository's `reverse()` / `__reversed__`
implementation is absent from `src/` (only the test suite exercises
`reversed(dtrange)`), so this follows the spec's words: new
`start = stop − step`, new `stop = start − step`, new `step = −step`. -/
def DatetimeRange.reverse (r : DatetimeRange) : DatetimeRange :=
  ⟨r.stop - r.step, r.start - r.step, -r.step⟩

instance {ε α : Type} [DecidableEq ε] [DecidableEq α] : DecidableEq (Except ε α)
  | .error e, .error f =>
    if h : e = f then .isTrue (congrArg Except.error h)
    else .isFalse (fun hh => h (Except.error.inj hh))
  | .error _, .ok _ => .isFalse (fun hh => Except.noConfusion hh)
  | .ok _, .error _ => .isFalse (fun hh => Except.noConfusion hh)
  | .ok x, .ok y =>
    if h : x = y then .isTrue (congrArg Except.ok h)
    else .isFalse (fun hh => h (Except.ok.inj hh))

/-- Floor division is invariant under negating both operands (all six
constructor cases of `Int.fdiv` reduce definitionally). -/
theorem fdiv_neg_neg : ∀ a b : ℤ, Int.fdiv (-a) (-b) = Int.fdiv a b
  | .ofNat 0, .ofNat 0 => rfl
  | .ofNat 0, .ofNat (_ + 1) => rfl
  | .ofNat 0, .negSucc _ => rfl
  | .ofNat (_ + 1), .ofNat 0 => by simp
  | .ofNat (_ + 1), .ofNat (_ + 1) => rfl
  | .ofNat (_ + 1), .negSucc _ => rfl
  | .negSucc _, .ofNat 0 => by simp
  | .negSucc _, .ofNat (_ + 1) => rfl
  | .negSucc _, .negSucc _ => rfl

/-- A duration that is an exact multiple of another leaves no remainder
under Python's floor-convention modulo. -/
theorem fmod_eq_zero_of_dvd {x y : ℤ} (h : y ∣ x) : Int.fmod x y = 0 := by
  obtain ⟨k, rfl⟩ := h
  rw [Int.mul_comm]
  exact Int.mul_fmod_left k y

theorem mkRange_ok {s e d : ℤ} (h : d ≠ 0) : mkRange s e d = .ok ⟨s, e, d⟩ := by
  simp [mkRange, h]

theorem minByAbs_mem (x y : ℤ) : minByAbs x y = x ∨ minByAbs x y = y := by
  unfold minByAbs; split <;> simp

theorem maxByAbs_pos_eq_max {x y : ℤ} (hx : 0 < x) (hy : 0 < y) :
    maxByAbs x y = max x y := by
  unfold maxByAbs
  rw [abs_of_pos hx, abs_of_pos hy]
  split <;> omega

theorem maxByAbs_neg_eq_min {x y : ℤ} (hx : x < 0) (hy : y < 0) :
    maxByAbs x y = min x y := by
  unfold maxByAbs
  rw [abs_of_neg hx, abs_of_neg hy]
  split <;> omega

/-- The only error `__getitem__` can signal is `IndexError`. -/
theorem getFuel_error : ∀ (n : ℕ) (r : DatetimeRange) (i : ℤ) (e : Err),
    getFuel n r i = .error e → e = .indexOutOfRange
  | 0, _, _, _, h => (Except.error.inj h).symm
  | n + 1, r, i, e, h => by
    unfold getFuel at h
    split at h
    · exact (Except.error.inj h).symm
    · split at h
      · exact getFuel_error n r _ e h
      · exact absurd h (by simp)

/-- `__getitem__` on a non-negative in-bounds index returns `start + i*step`. -/
theorem get_nonneg (r : DatetimeRange) (i : ℤ) (h0 : 0 ≤ i)
    (h1 : i < (r.length : ℤ)) : r.get i = .ok (r.start + i * r.step) := by
  have habs : ¬ (r.length : ℤ) ≤ |i| := by rw [abs_of_nonneg h0]; omega
  unfold DatetimeRange.get getFuel
  rw [if_neg habs, if_neg (by omega)]

/-- C1.  On the two-element range `(0, 2, 1)` the code raises
`IndexOutOfRange` for the negative index `-1` even though index `1` (the
last element, which the spec says `-1` must also denote) is valid: the
negative branch of `__getitem__` recurses on `len(self) - i = len + |i|`,
an index that is always out of range, so end-relative indexing never
succeeds. -/
theorem getitem_negative_index_raises :
    DatetimeRange.get ⟨0, 2, 1⟩ (-1) = .error .indexOutOfRange ∧
    DatetimeRange.get ⟨0, 2, 1⟩ 1 = .ok 1 := by
  decide

/-- C2.  `r & r` always succeeds and returns a range with exactly `r`'s
fields, but comparing that result to `r` with `==` raises `IndexOutOfRange`
whenever `length r ≥ 2` (shown at `(0, 2, 1)`), because `__eq__` evaluates
`self[-1]` and negative indexing is broken; so `r & r == r` raises instead
of holding. -/
theorem and_self_succeeds_but_eq_raises :
    (∀ r : DatetimeRange, r.step ≠ 0 → r.inter r = .ok r) ∧
    DatetimeRange.inter ⟨0, 2, 1⟩ ⟨0, 2, 1⟩ = .ok ⟨0, 2, 1⟩ ∧
    DatetimeRange.beq ⟨0, 2, 1⟩ ⟨0, 2, 1⟩ = .error .indexOutOfRange := by
  refine ⟨fun r hr => ?_, by decide, by decide⟩
  unfold DatetimeRange.inter
  rw [if_neg (by simp)]
  rw [if_neg (by simp [maxByAbs, minByAbs, Int.fmod_self])]
  rcases eq_or_ne r.ordering .ascending with h | h
  · rw [if_pos h, max_self, min_self, max_self, mkRange_ok hr]
  · rw [if_neg h, max_self, min_self, min_self, mkRange_ok hr]

/-- C2 witness: the self-intersection clause applied at `(0, 3, 1)`. -/
theorem and_self_succeeds_but_eq_raises_witness :
    DatetimeRange.inter ⟨0, 3, 1⟩ ⟨0, 3, 1⟩ = .ok ⟨0, 3, 1⟩ :=
  and_self_succeeds_but_eq_raises.1 ⟨0, 3, 1⟩ (by decide)

/-- C3 counterexample.  On the singleton range `(0, 1, 1)` (length 1) the
element at index `length - 1 = 0` is `0`, while `start + length × step`,
the claim's definition of `last`, is `1`: `get (length-1)` does not return
`start + length × step`. -/
theorem getitem_last_counterexample :
    DatetimeRange.get ⟨0, 1, 1⟩ (((⟨0, 1, 1⟩ : DatetimeRange).length : ℤ) - 1) = .ok 0 ∧
    (0 : ℤ) + ((⟨0, 1, 1⟩ : DatetimeRange).length : ℤ) * 1 = 1 ∧
    DatetimeRange.get ⟨0, 1, 1⟩ (((⟨0, 1, 1⟩ : DatetimeRange).length : ℤ) - 1) ≠
      .ok ((0 : ℤ) + ((⟨0, 1, 1⟩ : DatetimeRange).length : ℤ) * 1) := by
  decide

/-- C3 (amended).  For a non-empty range, `get 0 = start`,
`get (length-1) = start + (length-1) × step` (the actual last element),
and `get i = start + i × step` for every `0 ≤ i < length`. -/
theorem getitem_formula (r : DatetimeRange) (h : 0 < r.length) :
    r.get 0 = .ok r.start ∧
    r.get ((r.length : ℤ) - 1) = .ok (r.start + ((r.length : ℤ) - 1) * r.step) ∧
    ∀ i : ℤ, 0 ≤ i → i < (r.length : ℤ) → r.get i = .ok (r.start + i * r.step) := by
  refine ⟨?_, ?_, fun i h0 h1 => get_nonneg r i h0 h1⟩
  · have := get_nonneg r 0 le_rfl (by exact_mod_cast h)
    simpa using this
  · exact get_nonneg r ((r.length : ℤ) - 1) (by omega) (by omega)

/-- C3 witness: the amended index formula applied at `(0, 2, 1)`. -/
theorem getitem_formula_witness :
    DatetimeRange.get ⟨0, 2, 1⟩ 0 = .ok 0 :=
  (getitem_formula ⟨0, 2, 1⟩ (by decide)).1

/-- C5.  `a <= b` is not total: at `a = b = (0, 2, 1)` the union succeeds
and the subsequent `==` raises `IndexOutOfRange`, which `__le__`'s
`except ValueError` does not catch, so the comparison propagates the
error instead of returning a boolean. -/
theorem le_self_raises_index_error :
    DatetimeRange.le ⟨0, 2, 1⟩ ⟨0, 2, 1⟩ = .error .indexOutOfRange := by
  decide

/-- C6.  `reverse()` (modelled from the spec, absent from `src/`) returns
the range `(stop − step, start − step, −step)`; reversal is an involution
and preserves `length` (timestamps are modelled as unbounded integers, so
no boundary overflow occurs). -/
theorem reverse_fields_roundtrip_length (r : DatetimeRange) :
    r.reverse.start = r.stop - r.step ∧
    r.reverse.stop = r.start - r.step ∧
    r.reverse.step = -r.step ∧
    r.reverse.reverse = r ∧
    r.reverse.length = r.length := by
  refine ⟨rfl, rfl, rfl, ?_, ?_⟩
  · cases r with
    | mk s e d => simp [DatetimeRange.reverse]
  · unfold DatetimeRange.length DatetimeRange.reverse
    have h1 : (r.start - r.step) - (r.stop - r.step) = -(r.stop - r.start) := by ring
    simp only [h1]
    rw [fdiv_neg_neg]

/-- C4 counterexample.  On the ascending range `(0, 2, 1)` and the
descending range `(2, 0, -1)`, `isdisjoint` propagates the
`IncompatibleDirection` failure of `&` instead of returning true. -/
theorem isdisjoint_raises_counterexample :
    DatetimeRange.isdisjoint ⟨0, 2, 1⟩ ⟨2, 0, -1⟩ = .error .incompatibleDirection ∧
    DatetimeRange.isdisjoint ⟨0, 2, 1⟩ ⟨2, 0, -1⟩ ≠ .ok true := by
  decide

/-- C4 (amended).  `isdisjoint` delegates to `&` with nothing caught: an
incompatible direction or incompatible step makes it propagate that very
failure, and only when the intersection succeeds does it report emptiness
of the result. -/
theorem isdisjoint_delegates (a b : DatetimeRange) :
    (a.ordering ≠ b.ordering → a.isdisjoint b = .error .incompatibleDirection) ∧
    (a.ordering = b.ordering →
      Int.fmod (maxByAbs a.step b.step) (minByAbs a.step b.step) ≠ 0 →
      a.isdisjoint b = .error .incompatibleStep) ∧
    ∀ r, a.inter b = .ok r → a.isdisjoint b = .ok (decide (r.length = 0)) := by
  refine ⟨fun h => ?_, fun h1 h2 => ?_, fun r h => ?_⟩
  · unfold DatetimeRange.isdisjoint DatetimeRange.inter
    rw [if_pos h]
    rfl
  · unfold DatetimeRange.isdisjoint DatetimeRange.inter
    rw [if_neg (by simp [h1]), if_pos h2]
    rfl
  · unfold DatetimeRange.isdisjoint
    rw [h]
    rfl

/-- C4 witness: a compatible pair, where `isdisjoint` reports emptiness of
the (here non-empty) intersection. -/
theorem isdisjoint_delegates_witness :
    DatetimeRange.isdisjoint ⟨0, 6, 2⟩ ⟨1, 7, 2⟩ = .ok false := by
  have h := (isdisjoint_delegates ⟨0, 6, 2⟩ ⟨1, 7, 2⟩).2.2 ⟨1, 6, 2⟩ (by decide)
  simpa using h

/-- `_ordering` is `ASCENDING` exactly for a positive step. -/
theorem ordering_ascending_iff (r : DatetimeRange) :
    r.ordering = .ascending ↔ 0 < r.step := by
  unfold DatetimeRange.ordering
  split
  case isTrue h => exact iff_of_true rfl h
  case isFalse h => exact iff_of_false (by simp) h

/-- C7.  Same-direction ranges whose step magnitudes divide one another
always intersect: the result keeps the larger-magnitude step (carrying the
direction's sign) and takes bounds `(max starts, min stops)` ascending,
`(min starts, max stops)` descending. -/
theorem inter_same_direction_multiple_steps (a b : DatetimeRange)
    (ha : a.step ≠ 0) (hb : b.step ≠ 0) (hdir : 0 < a.step ↔ 0 < b.step)
    (hmul : minByAbs a.step b.step ∣ maxByAbs a.step b.step) :
    (0 < a.step →
      a.inter b = .ok ⟨max a.start b.start, min a.stop b.stop, maxByAbs a.step b.step⟩) ∧
    (a.step < 0 →
      a.inter b = .ok ⟨min a.start b.start, max a.stop b.stop, maxByAbs a.step b.step⟩) := by
  have hord : a.ordering = b.ordering := by
    unfold DatetimeRange.ordering
    by_cases h : 0 < a.step
    · rw [if_pos h, if_pos (hdir.mp h)]
    · rw [if_neg h, if_neg (fun hb0 => h (hdir.mpr hb0))]
  have hfmod : ¬ Int.fmod (maxByAbs a.step b.step) (minByAbs a.step b.step) ≠ 0 := by
    simpa using fmod_eq_zero_of_dvd hmul
  constructor
  · intro hpos
    have hbpos : 0 < b.step := hdir.mp hpos
    unfold DatetimeRange.inter
    rw [if_neg (by simp [hord]), if_neg hfmod,
      if_pos ((ordering_ascending_iff a).mpr hpos),
      maxByAbs_pos_eq_max hpos hbpos]
    exact mkRange_ok (lt_max_of_lt_left hpos).ne'
  · intro hneg
    have hbneg : b.step < 0 := by
      rcases hb.lt_or_lt with h | h
      · exact h
      · exact absurd (hdir.mpr h) (by omega)
    unfold DatetimeRange.inter
    rw [if_neg (by simp [hord]), if_neg hfmod,
      if_neg (by rw [ordering_ascending_iff]; omega),
      maxByAbs_neg_eq_min hneg hbneg]
    exact mkRange_ok (min_lt_of_left_lt hneg).ne

/-- C7 witness: Scenario 2 of the spec, `(T0, T0+5s, 1s) & (T0+2s, T0+10s, 1s)
= (T0+2s, T0+5s, 1s)` with `T0 = 0` and seconds as ticks. -/
theorem inter_same_direction_multiple_steps_witness :
    DatetimeRange.inter ⟨0, 5, 1⟩ ⟨2, 10, 1⟩ = .ok ⟨2, 5, 1⟩ := by
  have h := (inter_same_direction_multiple_steps ⟨0, 5, 1⟩ ⟨2, 10, 1⟩
    (by decide) (by decide) (by decide) ⟨1, by decide⟩).1 (by decide)
  simpa using h

/-- C8.  `a - b` first computes `o = b & a`; an empty `o` returns `a`
unchanged; with equal steps, a matching `start` returns `(o.stop, a.stop,
a.step)`; and with equal steps but neither boundary matching it fails with
`WouldCreateSparseRange`. -/
theorem sub_restriction_and_equal_step_cases (a b : DatetimeRange) (ha : a.step ≠ 0) :
    (∀ o, b.inter a = .ok o → o.length = 0 → a.sub b = .ok a) ∧
    (∀ o, b.inter a = .ok o → o.length ≠ 0 → a.step = o.step → a.start = o.start →
      a.sub b = .ok ⟨o.stop, a.stop, a.step⟩) ∧
    (∀ o, b.inter a = .ok o → o.length ≠ 0 → a.step = o.step → a.start ≠ o.start →
      a.stop ≠ o.stop → a.sub b = .error .wouldCreateSparseRange) := by
  refine ⟨fun o hint hlen => ?_, fun o hint hlen hstep hstart => ?_,
    fun o hint hlen hstep hstart hstop => ?_⟩
  · simp only [DatetimeRange.sub, hint]
    rw [if_pos hlen]
  · simp only [DatetimeRange.sub, hint]
    rw [if_neg hlen, if_pos hstep, if_pos hstart]
    exact mkRange_ok ha
  · simp only [DatetimeRange.sub, hint]
    rw [if_neg hlen, if_pos hstep, if_neg hstart, if_neg hstop]

/-- C8 witness: Scenario 3 of the spec, `(T0, T0+10s, 1s) - (T0, T0+5s, 1s)
= (T0+5s, T0+10s, 1s)` with `T0 = 0` and seconds as ticks. -/
theorem sub_restriction_witness :
    DatetimeRange.sub ⟨0, 10, 1⟩ ⟨0, 5, 1⟩ = .ok ⟨5, 10, 1⟩ :=
  (sub_restriction_and_equal_step_cases ⟨0, 10, 1⟩ ⟨0, 5, 1⟩ (by decide)).2.1
    ⟨0, 5, 1⟩ (by decide) (by decide) (by decide) (by decide)

/-- C9.  For equal-step ranges the union fails with `NonContiguous` exactly
when the ranges neither overlap nor touch (`min stops < max starts`
ascending, `min starts < max stops` descending), and otherwise spans
`(min starts, max stops)` ascending / `(max starts, min stops)` descending
at the shared step. -/
theorem union_equal_steps_contiguity (a b : DatetimeRange)
    (hstep : a.step = b.step) (ha : a.step ≠ 0) :
    (0 < a.step →
      (a.union b = .error .nonContiguous ↔ min a.stop b.stop < max a.start b.start) ∧
      (¬ min a.stop b.stop < max a.start b.start →
        a.union b = .ok ⟨min a.start b.start, max a.stop b.stop, a.step⟩)) ∧
    (a.step < 0 →
      (a.union b = .error .nonContiguous ↔ min a.start b.start < max a.stop b.stop) ∧
      (¬ min a.start b.start < max a.stop b.stop →
        a.union b = .ok ⟨max a.start b.start, min a.stop b.stop, a.step⟩)) := by
  have hfmod : ¬ Int.fmod (maxByAbs a.step b.step) (minByAbs a.step b.step) ≠ 0 := by
    rw [← hstep]
    simp [maxByAbs, minByAbs, Int.fmod_self]
  constructor
  · intro hpos
    have hasc := (ordering_ascending_iff a).mpr hpos
    have hu : a.union b = (if min a.stop b.stop < max a.start b.start
        then .error .nonContiguous
        else mkRange (min a.start b.start) (max a.stop b.stop) a.step) := by
      unfold DatetimeRange.union
      rw [if_neg hfmod, if_neg (by simp [hstep])]
      simp only [hasc]
      simp
    refine ⟨⟨fun herr => ?_, fun hc => ?_⟩, fun hc => ?_⟩
    · by_cases hcc : min a.stop b.stop < max a.start b.start
      · exact hcc
      · rw [hu, if_neg hcc, mkRange_ok ha] at herr
        exact absurd herr (by simp)
    · rw [hu, if_pos hc]
    · rw [hu, if_neg hc]
      exact mkRange_ok ha
  · intro hneg
    have hdesc : ¬ a.ordering = .ascending := by
      rw [ordering_ascending_iff]
      omega
    have hu : a.union b = (if min a.start b.start < max a.stop b.stop
        then .error .nonContiguous
        else mkRange (max a.start b.start) (min a.stop b.stop) a.step) := by
      unfold DatetimeRange.union
      rw [if_neg hfmod, if_neg (by simp [hstep])]
      simp only [if_neg hdesc]
    refine ⟨⟨fun herr => ?_, fun hc => ?_⟩, fun hc => ?_⟩
    · by_cases hcc : min a.start b.start < max a.stop b.stop
      · exact hcc
      · rw [hu, if_neg hcc, mkRange_ok ha] at herr
        exact absurd herr (by simp)
    · rw [hu, if_pos hc]
    · rw [hu, if_neg hc]
      exact mkRange_ok ha

/-- C9 witness: Scenario 5 of the spec, `(T0, T0+10s, 1s) | (T0+20s,
T0+30s, 1s)` fails with `NonContiguous` (`T0 = 0`, seconds as ticks). -/
theorem union_equal_steps_contiguity_witness :
    DatetimeRange.union ⟨0, 10, 1⟩ ⟨20, 30, 1⟩ = .error .nonContiguous :=
  ((union_equal_steps_contiguity ⟨0, 10, 1⟩ ⟨20, 30, 1⟩ rfl (by decide)).1
    (by decide)).1.mpr (by decide)

theorem mkRange_result {s e d : ℤ} (h : d ≠ 0) :
    mkRange s e d ≠ .error .invalidStep ∧ ∀ r, mkRange s e d = .ok r → r.step ≠ 0 := by
  rw [mkRange_ok h]
  exact ⟨by simp, fun r hr => by cases Except.ok.inj hr; exact h⟩

theorem get_error {r : DatetimeRange} {i : ℤ} {e : Err}
    (h : r.get i = .error e) : e = .indexOutOfRange :=
  getFuel_error 2 r i e h

/-- `&` on nonzero-step operands never trips the constructor's zero-step
check, and its successful results keep a nonzero step. -/
theorem inter_step_invariant (a b : DatetimeRange) (ha : a.step ≠ 0) :
    a.inter b ≠ .error .invalidStep ∧ ∀ r, a.inter b = .ok r → r.step ≠ 0 := by
  unfold DatetimeRange.inter
  split
  · exact ⟨by decide, by simp⟩
  · split
    · exact ⟨by decide, by simp⟩
    · split
      · next h1 h2 h3 =>
        have hpos : 0 < a.step := (ordering_ascending_iff a).mp h3
        exact mkRange_result (lt_max_of_lt_left hpos).ne'
      · next h1 h2 h3 =>
        have hneg : a.step < 0 := by
          rw [ordering_ascending_iff] at h3
          omega
        exact mkRange_result (min_lt_of_left_lt hneg).ne

/-- `|` on nonzero-step operands never trips the constructor's zero-step
check, and its successful results keep a nonzero step. -/
theorem union_step_invariant (a b : DatetimeRange) (ha : a.step ≠ 0) (hb : b.step ≠ 0) :
    a.union b ≠ .error .invalidStep ∧ ∀ r, a.union b = .ok r → r.step ≠ 0 := by
  have hmin : minByAbs a.step b.step ≠ 0 := by
    rcases minByAbs_mem a.step b.step with h | h <;> rw [h] <;> assumption
  unfold DatetimeRange.union
  repeat' split
  all_goals first
    | exact mkRange_result hmin
    | exact mkRange_result ha
    | (refine ⟨?_, ?_⟩ <;> simp)

/-- `-` on nonzero-step operands never trips the constructor's zero-step
check, and its successful results keep a nonzero step. -/
theorem sub_step_invariant (a b : DatetimeRange) (ha : a.step ≠ 0) (hb : b.step ≠ 0) :
    a.sub b ≠ .error .invalidStep ∧ ∀ r, a.sub b = .ok r → r.step ≠ 0 := by
  have hI := inter_step_invariant b a hb
  unfold DatetimeRange.sub
  split
  · next e heq =>
    rw [heq] at hI
    exact ⟨hI.1, by simp⟩
  · next o heq =>
    have hostep : o.step ≠ 0 := hI.2 o heq
    split
    · exact ⟨by simp, fun r hr => by cases Except.ok.inj hr; exact ha⟩
    · split
      · split
        · exact mkRange_result ha
        · split
          · exact mkRange_result ha
          · exact ⟨by decide, by simp⟩
      · split
        · next e heq2 =>
          cases get_error heq2
          exact ⟨by decide, by simp⟩
        · split
          · exact mkRange_result ha
          · split
            · next e heq3 =>
              cases get_error heq3
              exact ⟨by decide, by simp⟩
            · split
              · exact mkRange_result ha
              · split
                · exact ⟨by decide, by simp⟩
                · split
                  · exact mkRange_result hostep
                  · split
                    · exact mkRange_result hostep
                    · exact ⟨by decide, by simp⟩

/-- C10.  On valid operands (nonzero steps), intersection, union and
difference never reach the constructor's `InvalidStep` branch, and every
range they return has a nonzero step: the step-nonzero invariant is
preserved by the algebraic operations. -/
theorem algebra_preserves_nonzero_step (a b : DatetimeRange)
    (ha : a.step ≠ 0) (hb : b.step ≠ 0) :
    (a.inter b ≠ .error .invalidStep ∧ ∀ r, a.inter b = .ok r → r.step ≠ 0) ∧
    (a.union b ≠ .error .invalidStep ∧ ∀ r, a.union b = .ok r → r.step ≠ 0) ∧
    (a.sub b ≠ .error .invalidStep ∧ ∀ r, a.sub b = .ok r → r.step ≠ 0) :=
  ⟨inter_step_invariant a b ha, union_step_invariant a b ha hb,
    sub_step_invariant a b ha hb⟩

/-- C10 witness: the invariant applied at `(0, 2, 1)` and `(0, 3, 1)`. -/
theorem algebra_preserves_nonzero_step_witness :
    DatetimeRange.inter ⟨0, 2, 1⟩ ⟨0, 3, 1⟩ ≠ .error .invalidStep :=
  ((algebra_preserves_nonzero_step ⟨0, 2, 1⟩ ⟨0, 3, 1⟩ (by decide) (by decide)).1).1

/-- Fuel 2 is exact for `__getitem__`: the recursive call happens only for
a negative index and passes `length - i = length + |i|`, which the bounds
guard rejects before any further recursion, so extra fuel never changes
the result. -/
theorem getFuel_stable (n : ℕ) (r : DatetimeRange) (i : ℤ) :
    getFuel (n + 2) r i = getFuel 2 r i := by
  show (if (r.length : ℤ) ≤ |i| then (.error .indexOutOfRange : Except Err ℤ)
      else if i < 0 then getFuel (n + 1) r ((r.length : ℤ) - i)
      else .ok (r.start + i * r.step)) =
    (if (r.length : ℤ) ≤ |i| then .error .indexOutOfRange
      else if i < 0 then getFuel 1 r ((r.length : ℤ) - i)
      else .ok (r.start + i * r.step))
  by_cases hg : (r.length : ℤ) ≤ |i|
  · rw [if_pos hg, if_pos hg]
  · rw [if_neg hg, if_neg hg]
    by_cases hneg : i < 0
    · rw [if_pos hneg, if_pos hneg]
      have h0 : (0 : ℤ) ≤ (r.length : ℤ) := Int.ofNat_nonneg _
      have hj : (r.length : ℤ) ≤ |(r.length : ℤ) - i| := by
        rw [abs_of_nonneg (by omega)]
        omega
      show (if (r.length : ℤ) ≤ |(r.length : ℤ) - i|
            then (.error .indexOutOfRange : Except Err ℤ)
          else if ((r.length : ℤ) - i) < 0
            then getFuel n r ((r.length : ℤ) - ((r.length : ℤ) - i))
          else .ok (r.start + ((r.length : ℤ) - i) * r.step)) =
        (if (r.length : ℤ) ≤ |(r.length : ℤ) - i| then .error .indexOutOfRange
          else if ((r.length : ℤ) - i) < 0
            then getFuel 0 r ((r.length : ℤ) - ((r.length : ℤ) - i))
          else .ok (r.start + ((r.length : ℤ) - i) * r.step))
      rw [if_pos hj, if_pos hj]
    · rw [if_neg hneg, if_neg hneg]
